import Mathlib

/-!
Shallow embedding of the 2D elastic-particle simulation core that appears in
`3d2.py` (gas-particle section) and `next.py` (trailed variant) of the
repository.  Python floats are idealised as real numbers; `math.hypot dx dy`
becomes `Real.sqrt (dx^2 + dy^2)`.
-/

namespace Gas

/-- The constant `WIDTH` from the CONFIG block of `3d2.py` / `next.py`. -/
def WIDTH : ℝ := 900

/-- The constant `HEIGHT` from the CONFIG block. -/
def HEIGHT : ℝ := 600

/-- The constant `MARGIN` from the CONFIG block. -/
def MARGIN : ℝ := 40

/-- The constant `TRAIL_DURATION` from the CONFIG block of `next.py`. -/
def TRAIL_DURATION : ℝ := 2

/-- A body of the simulation: `Particle.__init__` of `3d2.py`
(`color` is presentation-only and omitted). -/
structure Particle where
  x : ℝ
  y : ℝ
  vx : ℝ
  vy : ℝ
  r : ℝ

/-- The method `Particle.update(self, dt)` of `3d2.py`: integrate the motion, then
reflect off each of the four walls (per axis: an `if low / elif high` pair,
mirroring the overshoot back inside and negating the velocity component). -/
noncomputable def Particle.update (p : Particle) (dt : ℝ) : Particle :=
  let x := p.x + p.vx * dt
  let y := p.y + p.vy * dt
  let left := MARGIN + p.r
  let right := WIDTH - MARGIN - p.r
  let top := MARGIN + p.r
  let bottom := HEIGHT - MARGIN - p.r
  let xv : ℝ × ℝ :=
    if x ≤ left then (left + (left - x), p.vx * (-1))
    else if x ≥ right then (right - (x - right), p.vx * (-1))
    else (x, p.vx)
  let yv : ℝ × ℝ :=
    if y ≤ top then (top + (top - y), p.vy * (-1))
    else if y ≥ bottom then (bottom - (y - bottom), p.vy * (-1))
    else (y, p.vy)
  { x := xv.1, y := yv.1, vx := xv.2, vy := yv.2, r := p.r }

/-- The expression `math.hypot(p1.x - p2.x, p1.y - p2.y)`: the distance between centers. -/
noncomputable def centerDist (p1 p2 : Particle) : ℝ :=
  Real.sqrt ((p1.x - p2.x) ^ 2 + (p1.y - p2.y) ^ 2)

/-- The function `resolve_collision(p1, p2)` of `3d2.py` (identical in `next.py`): skip at
zero distance; skip separating pairs (`rel_vel > 0`); otherwise exchange the
normal velocity component (equal-mass elastic collision) and, when the pair
overlaps, push both centers apart along the normal by half the overlap each.
The in-place mutation is rendered as returning the updated pair. -/
noncomputable def resolve_collision (p1 p2 : Particle) : Particle × Particle :=
  let dx := p1.x - p2.x
  let dy := p1.y - p2.y
  let dist := centerDist p1 p2
  if dist = 0 then (p1, p2)
  else
    let nx := dx / dist
    let ny := dy / dist
    let dvx := p1.vx - p2.vx
    let dvy := p1.vy - p2.vy
    let rel_vel := dvx * nx + dvy * ny
    if rel_vel > 0 then (p1, p2)
    else
      let q1 : Particle :=
        { p1 with vx := p1.vx - rel_vel * nx, vy := p1.vy - rel_vel * ny }
      let q2 : Particle :=
        { p2 with vx := p2.vx + rel_vel * nx, vy := p2.vy + rel_vel * ny }
      let overlap := p1.r + p2.r - dist
      if overlap > 0 then
        ({ q1 with x := q1.x + nx * overlap / 2, y := q1.y + ny * overlap / 2 },
         { q2 with x := q2.x - nx * overlap / 2, y := q2.y - ny * overlap / 2 })
      else (q1, q2)

/-- One iteration of the `while` loop
`while self.trail and now - self.trail[0][2] > TRAIL_DURATION: self.trail.pop(0)`
of `next.py`: drop samples from the front while the front sample is older
than the retention window. -/
noncomputable def evictOld (now : ℝ) : List (ℝ × ℝ × ℝ) → List (ℝ × ℝ × ℝ)
  | [] => []
  | s :: rest =>
    if now - s.2.2 > TRAIL_DURATION then evictOld now rest else s :: rest

/-- A body of the trailed variant (`next.py`): the same fields plus
`trail`, a list of `(x, y, timestamp)` samples. -/
structure TParticle where
  x : ℝ
  y : ℝ
  vx : ℝ
  vy : ℝ
  r : ℝ
  trail : List (ℝ × ℝ × ℝ)

/-- The method `Particle.update(self, dt, now)` of `next.py`: append the current
position to the trail, evict samples older than `TRAIL_DURATION` from the
front, then move and reflect off the walls exactly as in `3d2.py`. -/
noncomputable def TParticle.update (p : TParticle) (dt now : ℝ) : TParticle :=
  let trail := evictOld now (p.trail ++ [(p.x, p.y, now)])
  let x := p.x + p.vx * dt
  let y := p.y + p.vy * dt
  let left := MARGIN + p.r
  let right := WIDTH - MARGIN - p.r
  let top := MARGIN + p.r
  let bottom := HEIGHT - MARGIN - p.r
  let xv : ℝ × ℝ :=
    if x ≤ left then (left + (left - x), p.vx * (-1))
    else if x ≥ right then (right - (x - right), p.vx * (-1))
    else (x, p.vx)
  let yv : ℝ × ℝ :=
    if y ≤ top then (top + (top - y), p.vy * (-1))
    else if y ≥ bottom then (bottom - (y - bottom), p.vy * (-1))
    else (y, p.vy)
  { x := xv.1, y := yv.1, vx := xv.2, vy := yv.2, r := p.r, trail := trail }

/-- One inner-loop iteration of the collision pass of `3d2.py`'s `main`:
for the index pair `(i, j)` re-read the (possibly already moved) particles,
apply the squared-distance broad check, and on a hit write back the pair
returned by `resolve_collision`. -/
noncomputable def collidePair (ps : List Particle) (ij : ℕ × ℕ) : List Particle :=
  match ps.get? ij.1, ps.get? ij.2 with
  | some p1, some p2 =>
    if (p1.x - p2.x) ^ 2 + (p1.y - p2.y) ^ 2 ≤ (p1.r + p2.r) ^ 2 then
      let q := resolve_collision p1 p2
      (ps.set ij.1 q.1).set ij.2 q.2
    else ps
  | _, _ => ps

/-- The index pairs visited by `for i in range(n): for j in range(i+1, n)`,
in program order. -/
def pairIndices (n : ℕ) : List (ℕ × ℕ) :=
  (List.range n).flatMap fun i =>
    ((List.range n).filter fun j => i < j).map fun j => (i, j)

/-- One frame of the simulation loop of `3d2.py`'s `main` (rendering and
events stripped): Phase 1 updates every particle, Phase 2 runs the pairwise
collision pass in ascending index order. -/
noncomputable def advance (ps : List Particle) (dt : ℝ) : List Particle :=
  (pairIndices ps.length).foldl collidePair (ps.map fun p => p.update dt)

/-- The arena invariant of the spec: the center lies within
`[arena.low + r, arena.high - r]` on each axis. -/
def inArena (p : Particle) : Prop :=
  MARGIN + p.r ≤ p.x ∧ p.x ≤ WIDTH - MARGIN - p.r ∧
  MARGIN + p.r ≤ p.y ∧ p.y ≤ HEIGHT - MARGIN - p.r

/-- C7: when the two centers exactly coincide, `resolve_collision` returns
without raising an error and leaves both particles (positions and
velocities) unchanged: the pair stays overlapping. -/
theorem resolve_collision_coincident (p1 p2 : Particle)
    (hx : p1.x = p2.x) (hy : p1.y = p2.y) :
    resolve_collision p1 p2 = (p1, p2) := by
  simp [resolve_collision, centerDist, hx, hy]

/-- Witness for C7 at a concrete coincident pair. -/
theorem resolve_collision_coincident_witness :
    resolve_collision ⟨3, 4, 7, -2, 10⟩ ⟨3, 4, -1, 5, 10⟩ =
      (⟨3, 4, 7, -2, 10⟩, ⟨3, 4, -1, 5, 10⟩) :=
  resolve_collision_coincident _ _ rfl rfl

/-- C6: an overlapping pair whose relative velocity along the unit normal is
already positive (`rel_vel > 0`, separating) is returned with both
velocities unchanged. -/
theorem resolve_collision_separating (p1 p2 : Particle)
    (hd : centerDist p1 p2 ≠ 0)
    (hover : centerDist p1 p2 < p1.r + p2.r)
    (hrel : 0 < (p1.vx - p2.vx) * ((p1.x - p2.x) / centerDist p1 p2) +
      (p1.vy - p2.vy) * ((p1.y - p2.y) / centerDist p1 p2)) :
    (resolve_collision p1 p2).1.vx = p1.vx ∧
    (resolve_collision p1 p2).1.vy = p1.vy ∧
    (resolve_collision p1 p2).2.vx = p2.vx ∧
    (resolve_collision p1 p2).2.vy = p2.vy := by
  simp only [resolve_collision]
  rw [if_neg hd, if_pos hrel]
  exact ⟨rfl, rfl, rfl, rfl⟩

/-- C9: the function `resolve_collision` always preserves the sum of the two velocities
(equal-mass momentum) and the midpoint of the two centers. -/
theorem resolve_collision_sum_invariants (p1 p2 : Particle) :
    (resolve_collision p1 p2).1.vx + (resolve_collision p1 p2).2.vx =
      p1.vx + p2.vx ∧
    (resolve_collision p1 p2).1.vy + (resolve_collision p1 p2).2.vy =
      p1.vy + p2.vy ∧
    ((resolve_collision p1 p2).1.x + (resolve_collision p1 p2).2.x) / 2 =
      (p1.x + p2.x) / 2 ∧
    ((resolve_collision p1 p2).1.y + (resolve_collision p1 p2).2.y) / 2 =
      (p1.y + p2.y) / 2 := by
  simp only [resolve_collision]
  split_ifs <;> refine ⟨by ring, by ring, by ring, by ring⟩

/-- Witness for C6: an overlapping pair moving apart keeps its velocities. -/
theorem resolve_collision_separating_witness :
    (resolve_collision ⟨0, 0, -10, 0, 10⟩ ⟨15, 0, 10, 0, 10⟩).1.vx = -10 ∧
    (resolve_collision ⟨0, 0, -10, 0, 10⟩ ⟨15, 0, 10, 0, 10⟩).1.vy = 0 ∧
    (resolve_collision ⟨0, 0, -10, 0, 10⟩ ⟨15, 0, 10, 0, 10⟩).2.vx = 10 ∧
    (resolve_collision ⟨0, 0, -10, 0, 10⟩ ⟨15, 0, 10, 0, 10⟩).2.vy = 0 := by
  have hcd : centerDist ⟨0, 0, -10, 0, 10⟩ ⟨15, 0, 10, 0, 10⟩ = 15 := by
    simp only [centerDist]
    norm_num
    rw [show (225 : ℝ) = 15 ^ 2 by norm_num]
    exact Real.sqrt_sq (by norm_num)
  exact resolve_collision_separating ⟨0, 0, -10, 0, 10⟩ ⟨15, 0, 10, 0, 10⟩
    (by rw [hcd]; norm_num) (by rw [hcd]; norm_num) (by rw [hcd]; norm_num)

/-- C5: the wall handling of `Particle.update`, per axis with
`low = MARGIN + r` and `high = WIDTH|HEIGHT - MARGIN - r`: a post-integration
coordinate at or below `low` is mirrored to `low + (low - coord)` with the
velocity component negated, symmetrically at or above `high`; the two axes
act independently, so both may reflect in the same call.  The arena is
assumed non-degenerate (`low < high` on each axis). -/
theorem update_wall_reflection (p : Particle) (dt : ℝ)
    (hax : MARGIN + p.r < WIDTH - MARGIN - p.r)
    (hay : MARGIN + p.r < HEIGHT - MARGIN - p.r) :
    (p.x + p.vx * dt ≤ MARGIN + p.r →
      (p.update dt).x = (MARGIN + p.r) + ((MARGIN + p.r) - (p.x + p.vx * dt)) ∧
      (p.update dt).vx = -p.vx) ∧
    (p.x + p.vx * dt ≥ WIDTH - MARGIN - p.r →
      (p.update dt).x =
        (WIDTH - MARGIN - p.r) - ((p.x + p.vx * dt) - (WIDTH - MARGIN - p.r)) ∧
      (p.update dt).vx = -p.vx) ∧
    (p.y + p.vy * dt ≤ MARGIN + p.r →
      (p.update dt).y = (MARGIN + p.r) + ((MARGIN + p.r) - (p.y + p.vy * dt)) ∧
      (p.update dt).vy = -p.vy) ∧
    (p.y + p.vy * dt ≥ HEIGHT - MARGIN - p.r →
      (p.update dt).y =
        (HEIGHT - MARGIN - p.r) - ((p.y + p.vy * dt) - (HEIGHT - MARGIN - p.r)) ∧
      (p.update dt).vy = -p.vy) := by
  simp only [Particle.update]
  refine ⟨fun h => ?_, fun h => ?_, fun h => ?_, fun h => ?_⟩ <;>
    split_ifs with h1 h2 <;>
    first
    | (constructor <;> ring1)
    | exact absurd h h1
    | exact absurd h h2
    | exact False.elim (by linarith)

/-- Witness for C5: a corner hit reflects both axes in one call. -/
theorem update_wall_reflection_witness :
    (Particle.update ⟨50, 50, -10, -10, 10⟩ 1).x = 60 ∧
    (Particle.update ⟨50, 50, -10, -10, 10⟩ 1).vx = 10 ∧
    (Particle.update ⟨50, 50, -10, -10, 10⟩ 1).y = 60 ∧
    (Particle.update ⟨50, 50, -10, -10, 10⟩ 1).vy = 10 := by
  obtain ⟨h1, -, h3, -⟩ := update_wall_reflection ⟨50, 50, -10, -10, 10⟩ 1
    (by norm_num [MARGIN, WIDTH]) (by norm_num [MARGIN, HEIGHT])
  obtain ⟨ha, hb⟩ := h1 (by norm_num [MARGIN])
  obtain ⟨hc, hd⟩ := h3 (by norm_num [MARGIN])
  refine ⟨?_, ?_, ?_, ?_⟩
  · rw [ha]; norm_num [MARGIN]
  · rw [hb]; norm_num
  · rw [hc]; norm_num [MARGIN]
  · rw [hd]; norm_num

/-- C10: the low-wall branch excludes the high-wall branch on the same axis
(the mirrored coordinate is not re-checked against the opposite wall), so an
overshoot larger than the arena extent leaves the particle outside
`[low, high]` at the end of the call, as the concrete instance shows. -/
theorem update_single_reflection_per_axis :
    (∀ (p : Particle) (dt : ℝ), p.x + p.vx * dt ≤ MARGIN + p.r →
      (p.update dt).x = (MARGIN + p.r) + ((MARGIN + p.r) - (p.x + p.vx * dt)) ∧
      (p.update dt).vx = -p.vx) ∧
    (Particle.update ⟨100, 100, -40000, 0, 10⟩ (1 / 20)).x = 2000 ∧
    WIDTH - MARGIN - (10 : ℝ) < 2000 := by
  have key : ∀ (p : Particle) (dt : ℝ), p.x + p.vx * dt ≤ MARGIN + p.r →
      (p.update dt).x = (MARGIN + p.r) + ((MARGIN + p.r) - (p.x + p.vx * dt)) ∧
      (p.update dt).vx = -p.vx := by
    intro p dt h
    simp only [Particle.update]
    rw [if_pos h]
    exact ⟨by ring, by ring⟩
  refine ⟨key, ?_, by norm_num [WIDTH, MARGIN]⟩
  have h := (key ⟨100, 100, -40000, 0, 10⟩ (1 / 20) (by norm_num [MARGIN])).1
  rw [h]; norm_num [MARGIN]

/-- C3: a head-on equal-mass collision with opposing velocities `±s·n` along
the line of centers negates both velocities (they exchange their normal
components) and leaves the total kinetic energy `|v1|² + |v2|²` unchanged. -/
theorem resolve_collision_head_on (p1 p2 : Particle) (s : ℝ) (hs : 0 ≤ s)
    (hd : centerDist p1 p2 ≠ 0)
    (hover : centerDist p1 p2 ≤ p1.r + p2.r)
    (h1x : p1.vx = -(s * ((p1.x - p2.x) / centerDist p1 p2)))
    (h1y : p1.vy = -(s * ((p1.y - p2.y) / centerDist p1 p2)))
    (h2x : p2.vx = s * ((p1.x - p2.x) / centerDist p1 p2))
    (h2y : p2.vy = s * ((p1.y - p2.y) / centerDist p1 p2)) :
    (resolve_collision p1 p2).1.vx = -p1.vx ∧
    (resolve_collision p1 p2).1.vy = -p1.vy ∧
    (resolve_collision p1 p2).2.vx = -p2.vx ∧
    (resolve_collision p1 p2).2.vy = -p2.vy ∧
    (resolve_collision p1 p2).1.vx ^ 2 + (resolve_collision p1 p2).1.vy ^ 2 +
        (resolve_collision p1 p2).2.vx ^ 2 + (resolve_collision p1 p2).2.vy ^ 2 =
      p1.vx ^ 2 + p1.vy ^ 2 + p2.vx ^ 2 + p2.vy ^ 2 := by
  have hsq : centerDist p1 p2 ^ 2 = (p1.x - p2.x) ^ 2 + (p1.y - p2.y) ^ 2 :=
    Real.sq_sqrt (by positivity)
  have hunit : (p1.x - p2.x) / centerDist p1 p2 * ((p1.x - p2.x) / centerDist p1 p2) +
      (p1.y - p2.y) / centerDist p1 p2 * ((p1.y - p2.y) / centerDist p1 p2) = 1 := by
    field_simp
    linear_combination hsq.symm
  have key : (p1.vx - p2.vx) * ((p1.x - p2.x) / centerDist p1 p2) +
      (p1.vy - p2.vy) * ((p1.y - p2.y) / centerDist p1 p2) = -(2 * s) := by
    rw [h1x, h1y, h2x, h2y]
    linear_combination (-(2 : ℝ) * s) * hunit
  simp only [resolve_collision]
  rw [if_neg hd, key, if_neg (by intro h; linarith : ¬ -(2 * s) > 0)]
  split_ifs with hov <;>
    refine ⟨?_, ?_, ?_, ?_, ?_⟩ <;>
    simp only [h1x, h1y, h2x, h2y] <;>
    ring1

/-- Witness for C3: the head-on pair of the concrete scenario. -/
theorem resolve_collision_head_on_witness :
    (resolve_collision ⟨0, 0, 50, 0, 10⟩ ⟨15, 0, -50, 0, 10⟩).1.vx = -50 ∧
    (resolve_collision ⟨0, 0, 50, 0, 10⟩ ⟨15, 0, -50, 0, 10⟩).1.vy = -0 ∧
    (resolve_collision ⟨0, 0, 50, 0, 10⟩ ⟨15, 0, -50, 0, 10⟩).2.vx = - -50 ∧
    (resolve_collision ⟨0, 0, 50, 0, 10⟩ ⟨15, 0, -50, 0, 10⟩).2.vy = -0 := by
  have hcd : centerDist ⟨0, 0, 50, 0, 10⟩ ⟨15, 0, -50, 0, 10⟩ = 15 := by
    simp only [centerDist]
    norm_num
    rw [show (225 : ℝ) = 15 ^ 2 by norm_num]
    exact Real.sqrt_sq (by norm_num)
  obtain ⟨h1, h2, h3, h4, -⟩ :=
    resolve_collision_head_on ⟨0, 0, 50, 0, 10⟩ ⟨15, 0, -50, 0, 10⟩ 50
      (by norm_num) (by rw [hcd]; norm_num) (by rw [hcd]; norm_num)
      (by rw [hcd]; norm_num) (by rw [hcd]; norm_num)
      (by rw [hcd]; norm_num) (by rw [hcd]; norm_num)
  exact ⟨h1, h2, h3, h4⟩

/-- Counterexample to C2 as stated: an overlapping, already-separating pair
(`rel_vel > 0`) is returned with the overlap left in place, so the
post-resolution center distance stays 15, not `r1 + r2 = 20`. -/
theorem resolve_collision_no_contact_when_separating :
    centerDist ⟨0, 0, -10, 0, 10⟩ ⟨15, 0, 10, 0, 10⟩ = 15 ∧
    centerDist (resolve_collision ⟨0, 0, -10, 0, 10⟩ ⟨15, 0, 10, 0, 10⟩).1
        (resolve_collision ⟨0, 0, -10, 0, 10⟩ ⟨15, 0, 10, 0, 10⟩).2 = 15 ∧
    (15 : ℝ) < 10 + 10 ∧ (15 : ℝ) ≠ 10 + 10 := by
  have hcd : centerDist ⟨0, 0, -10, 0, 10⟩ ⟨15, 0, 10, 0, 10⟩ = 15 := by
    simp only [centerDist]
    norm_num
    rw [show (225 : ℝ) = 15 ^ 2 by norm_num]
    exact Real.sqrt_sq (by norm_num)
  have hres : resolve_collision ⟨0, 0, -10, 0, 10⟩ ⟨15, 0, 10, 0, 10⟩ =
      (⟨0, 0, -10, 0, 10⟩, ⟨15, 0, 10, 0, 10⟩) := by
    simp only [resolve_collision]
    rw [hcd]
    norm_num
  rw [hres]
  exact ⟨hcd, hcd, by norm_num, by norm_num⟩

/-- The algebra of the overlap push: moving both centers apart along the
unit normal by half the overlap each puts them `r1 + r2` apart (squared). -/
theorem sumSq_after_push (x1 y1 x2 y2 r1 r2 d : ℝ) (hd : d ≠ 0)
    (hsq : d ^ 2 = (x1 - x2) ^ 2 + (y1 - y2) ^ 2) :
    (x1 + (x1 - x2) / d * (r1 + r2 - d) / 2 -
        (x2 - (x1 - x2) / d * (r1 + r2 - d) / 2)) ^ 2 +
      (y1 + (y1 - y2) / d * (r1 + r2 - d) / 2 -
        (y2 - (y1 - y2) / d * (r1 + r2 - d) / 2)) ^ 2 = (r1 + r2) ^ 2 := by
  have e1 : x1 + (x1 - x2) / d * (r1 + r2 - d) / 2 -
      (x2 - (x1 - x2) / d * (r1 + r2 - d) / 2) = (x1 - x2) * ((r1 + r2) / d) := by
    field_simp
    ring1
  have e2 : y1 + (y1 - y2) / d * (r1 + r2 - d) / 2 -
      (y2 - (y1 - y2) / d * (r1 + r2 - d) / 2) = (y1 - y2) * ((r1 + r2) / d) := by
    field_simp
    ring1
  rw [e1, e2]
  field_simp
  linear_combination (r1 + r2) ^ 2 * hsq.symm

/-- C2 amended: for an overlapping pair at nonzero distance whose relative
velocity along the normal is not separating (`rel_vel ≤ 0`),
`resolve_collision` leaves the centers at distance exactly `r1 + r2`. -/
theorem resolve_collision_reaches_contact (p1 p2 : Particle)
    (hd : 0 < centerDist p1 p2)
    (hover : centerDist p1 p2 < p1.r + p2.r)
    (hrel : (p1.vx - p2.vx) * ((p1.x - p2.x) / centerDist p1 p2) +
      (p1.vy - p2.vy) * ((p1.y - p2.y) / centerDist p1 p2) ≤ 0) :
    centerDist (resolve_collision p1 p2).1 (resolve_collision p1 p2).2 =
      p1.r + p2.r := by
  have hsq : centerDist p1 p2 ^ 2 = (p1.x - p2.x) ^ 2 + (p1.y - p2.y) ^ 2 :=
    Real.sq_sqrt (by positivity)
  have hdne : centerDist p1 p2 ≠ 0 := hd.ne'
  simp only [resolve_collision]
  rw [if_neg hdne, if_neg (not_lt.2 hrel), if_pos (by linarith)]
  simp only [centerDist]
  have key : ∀ X Y : ℝ, X ^ 2 + Y ^ 2 = (p1.r + p2.r) ^ 2 →
      Real.sqrt (X ^ 2 + Y ^ 2) = p1.r + p2.r := by
    intro X Y h
    rw [h]
    exact Real.sqrt_sq (by linarith)
  apply key
  exact sumSq_after_push p1.x p1.y p2.x p2.y p1.r p2.r (centerDist p1 p2) hdne hsq

/-- Witness for C2's amended statement at the concrete scenario pair. -/
theorem resolve_collision_reaches_contact_witness :
    centerDist (resolve_collision ⟨100, 100, 50, 0, 10⟩ ⟨115, 100, -50, 0, 10⟩).1
        (resolve_collision ⟨100, 100, 50, 0, 10⟩ ⟨115, 100, -50, 0, 10⟩).2 =
      10 + 10 := by
  have hcd : centerDist ⟨100, 100, 50, 0, 10⟩ ⟨115, 100, -50, 0, 10⟩ = 15 := by
    simp only [centerDist]
    norm_num
    rw [show (225 : ℝ) = 15 ^ 2 by norm_num]
    exact Real.sqrt_sq (by norm_num)
  exact resolve_collision_reaches_contact ⟨100, 100, 50, 0, 10⟩
    ⟨115, 100, -50, 0, 10⟩ (by rw [hcd]; norm_num) (by rw [hcd]; norm_num)
    (by rw [hcd]; norm_num)

/-- C4: the concrete scenario — radius-10 bodies at `(100,100)` and
`(115,100)` with velocities `(50,0)` and `(-50,0)` resolve to velocities
`(-50,0)` / `(50,0)` and positions `(97.5,100)` / `(117.5,100)`, centers 20
apart along the x-axis. -/
theorem resolve_collision_concrete_scenario :
    resolve_collision ⟨100, 100, 50, 0, 10⟩ ⟨115, 100, -50, 0, 10⟩ =
      (⟨195 / 2, 100, -50, 0, 10⟩, ⟨235 / 2, 100, 50, 0, 10⟩) ∧
    (235 / 2 : ℝ) - 195 / 2 = 20 := by
  have hcd : centerDist ⟨100, 100, 50, 0, 10⟩ ⟨115, 100, -50, 0, 10⟩ = 15 := by
    simp only [centerDist]
    norm_num
    rw [show (225 : ℝ) = 15 ^ 2 by norm_num]
    exact Real.sqrt_sq (by norm_num)
  refine ⟨?_, by norm_num⟩
  simp only [resolve_collision]
  rw [hcd]
  norm_num [Particle.mk.injEq, Prod.mk.injEq]

/-- The step `Particle.update` never changes the radius. -/
theorem update_r (p : Particle) (dt : ℝ) : (p.update dt).r = p.r := rfl

/-- The step `Particle.update` preserves the horizontal speed magnitude. -/
theorem update_abs_vx (p : Particle) (dt : ℝ) : |(p.update dt).vx| = |p.vx| := by
  simp only [Particle.update]
  split_ifs <;> simp

/-- The step `Particle.update` preserves the vertical speed magnitude. -/
theorem update_abs_vy (p : Particle) (dt : ℝ) : |(p.update dt).vy| = |p.vy| := by
  simp only [Particle.update]
  split_ifs <;> simp

/-- One Phase-1 step keeps a body inside the arena, provided `dt ≥ 0`, the
step travel is at most the body's diameter per axis, and the arena is at
least one diameter wide per axis. -/
theorem update_preserves_inArena (p : Particle) (dt : ℝ)
    (hdt : 0 ≤ dt)
    (hax : MARGIN + p.r + 2 * p.r ≤ WIDTH - MARGIN - p.r)
    (hay : MARGIN + p.r + 2 * p.r ≤ HEIGHT - MARGIN - p.r)
    (hvx : |p.vx| * dt ≤ 2 * p.r) (hvy : |p.vy| * dt ≤ 2 * p.r)
    (hin : inArena p) : inArena (p.update dt) := by
  obtain ⟨h1, h2, h3, h4⟩ := hin
  have hbx1 : p.vx * dt ≤ 2 * p.r :=
    le_trans (mul_le_mul_of_nonneg_right (le_abs_self _) hdt) hvx
  have hbx2 : -(2 * p.r) ≤ p.vx * dt := by
    have := mul_le_mul_of_nonneg_right (neg_abs_le p.vx) hdt
    linarith
  have hby1 : p.vy * dt ≤ 2 * p.r :=
    le_trans (mul_le_mul_of_nonneg_right (le_abs_self _) hdt) hvy
  have hby2 : -(2 * p.r) ≤ p.vy * dt := by
    have := mul_le_mul_of_nonneg_right (neg_abs_le p.vy) hdt
    linarith
  simp only [inArena, Particle.update]
  split_ifs <;> refine ⟨?_, ?_, ?_, ?_⟩ <;> dsimp only <;> linarith

/-- C1 amended: iterating the per-body Phase-1 step (integration plus wall
reflection) any number of times keeps every coordinate within
`[arena.low + r, arena.high - r]`, for any sequence of nonnegative time
steps in which the body travels at most its own diameter per axis. -/
theorem phase1_iter_no_escape (p : Particle) (dts : List ℝ)
    (hax : MARGIN + p.r + 2 * p.r ≤ WIDTH - MARGIN - p.r)
    (hay : MARGIN + p.r + 2 * p.r ≤ HEIGHT - MARGIN - p.r)
    (hdts : ∀ dt ∈ dts, 0 ≤ dt ∧ |p.vx| * dt ≤ 2 * p.r ∧ |p.vy| * dt ≤ 2 * p.r)
    (hin : inArena p) :
    inArena (dts.foldl Particle.update p) := by
  induction dts generalizing p with
  | nil => exact hin
  | cons dt rest ih =>
    have h0 := hdts dt (List.mem_cons_self dt rest)
    have hstep := update_preserves_inArena p dt h0.1 hax hay h0.2.1 h0.2.2 hin
    refine ih (p.update dt) ?_ ?_ ?_ hstep
    · rw [update_r]; exact hax
    · rw [update_r]; exact hay
    · intro dt' hmem
      obtain ⟨a, b, c⟩ := hdts dt' (List.mem_cons_of_mem _ hmem)
      exact ⟨a, by rw [update_abs_vx, update_r]; exact b,
        by rw [update_abs_vy, update_r]; exact c⟩

/-- Witness for C1's amended statement: a body iterated through two small
steps stays in the arena. -/
theorem phase1_iter_no_escape_witness :
    inArena (List.foldl Particle.update ⟨100, 100, 180, 0, 10⟩ [1 / 10, 1 / 20]) := by
  apply phase1_iter_no_escape ⟨100, 100, 180, 0, 10⟩ [1 / 10, 1 / 20]
  · norm_num [MARGIN, WIDTH]
  · norm_num [MARGIN, HEIGHT]
  · intro dt hmem
    rcases List.mem_cons.1 hmem with rfl | hmem'
    · norm_num
    · rcases List.mem_cons.1 hmem' with rfl | h
      · norm_num
      · exact absurd h (List.not_mem_nil dt)
  · norm_num [inArena, MARGIN, WIDTH, HEIGHT]

/-- Counterexample to C1 as stated: two bodies start inside the arena and
the step travel (dt = 0) is trivially below one diameter, yet after one full
`advance` — because the Phase-2 overlap push is never re-checked against the
walls — the first body's center ends at x = 47.5, below `arena.left + r = 50`. -/
theorem advance_escapes_arena :
    inArena ⟨50, 100, 0, 0, 10⟩ ∧ inArena ⟨65, 100, -1, 0, 10⟩ ∧
    (advance [⟨50, 100, 0, 0, 10⟩, ⟨65, 100, -1, 0, 10⟩] 0).head?.map Particle.x =
      some (95 / 2) ∧
    (95 / 2 : ℝ) < MARGIN + (10 : ℝ) := by
  have hu1 : Particle.update ⟨50, 100, 0, 0, 10⟩ 0 = ⟨50, 100, 0, 0, 10⟩ := by
    simp only [Particle.update]
    norm_num [MARGIN, WIDTH, HEIGHT, Particle.mk.injEq]
  have hu2 : Particle.update ⟨65, 100, -1, 0, 10⟩ 0 = ⟨65, 100, -1, 0, 10⟩ := by
    simp only [Particle.update]
    norm_num [MARGIN, WIDTH, HEIGHT, Particle.mk.injEq]
  have hcd : centerDist ⟨50, 100, 0, 0, 10⟩ ⟨65, 100, -1, 0, 10⟩ = 15 := by
    simp only [centerDist]
    norm_num
    rw [show (225 : ℝ) = 15 ^ 2 by norm_num]
    exact Real.sqrt_sq (by norm_num)
  have hres : resolve_collision ⟨50, 100, 0, 0, 10⟩ ⟨65, 100, -1, 0, 10⟩ =
      (⟨95 / 2, 100, -1, 0, 10⟩, ⟨135 / 2, 100, 0, 0, 10⟩) := by
    simp only [resolve_collision]
    rw [hcd]
    norm_num [Particle.mk.injEq, Prod.mk.injEq]
  have hadv : advance [⟨50, 100, 0, 0, 10⟩, ⟨65, 100, -1, 0, 10⟩] 0 =
      [⟨95 / 2, 100, -1, 0, 10⟩, ⟨135 / 2, 100, 0, 0, 10⟩] := by
    simp only [advance, List.map_cons, List.map_nil, hu1, hu2]
    rw [show pairIndices ([⟨50, 100, 0, 0, 10⟩, ⟨65, 100, -1, 0, 10⟩] :
      List Particle).length = [(0, 1)] from rfl]
    rw [List.foldl_cons, List.foldl_nil]
    simp only [collidePair, List.get?]
    rw [if_pos (by norm_num : ((50 : ℝ) - 65) ^ 2 + ((100 : ℝ) - 100) ^ 2 ≤
      ((10 : ℝ) + 10) ^ 2)]
    rw [hres]
    rfl
  refine ⟨?_, ?_, ?_, ?_⟩
  · norm_num [inArena, MARGIN, WIDTH, HEIGHT]
  · norm_num [inArena, MARGIN, WIDTH, HEIGHT]
  · rw [hadv]; rfl
  · norm_num [MARGIN]

/-- The eviction loop only removes a prefix: its result is a suffix of the
input list. -/
theorem evictOld_suffix (now : ℝ) (l : List (ℝ × ℝ × ℝ)) :
    evictOld now l <:+ l := by
  induction l with
  | nil => simp [evictOld]
  | cons s rest ih =>
    simp only [evictOld]
    split_ifs with h
    · exact ih.trans (List.suffix_cons s rest)
    · exact List.suffix_refl _

/-- After eviction, every retained sample of a chronologically ordered trail
is at most `TRAIL_DURATION` old. -/
theorem evictOld_ages (now : ℝ) (l : List (ℝ × ℝ × ℝ))
    (hsort : List.Pairwise (fun a b => a.2.2 ≤ b.2.2) l) :
    ∀ s ∈ evictOld now l, now - s.2.2 ≤ TRAIL_DURATION := by
  induction l with
  | nil => intro s hs; simp [evictOld] at hs
  | cons a rest ih =>
    intro s hs
    simp only [evictOld] at hs
    split_ifs at hs with h
    · exact ih (List.Pairwise.of_cons hsort) s hs
    · rcases List.mem_cons.1 hs with rfl | hmem
      · exact not_lt.1 h
      · have hts := (List.pairwise_cons.1 hsort).1 s hmem
        have h' := not_lt.1 h
        linarith

/-- The sample appended with timestamp `now` survives the eviction loop. -/
theorem evictOld_mem_append (now : ℝ) (a : ℝ × ℝ × ℝ) (l : List (ℝ × ℝ × ℝ))
    (ha : ¬ now - a.2.2 > TRAIL_DURATION) : a ∈ evictOld now (l ++ [a]) := by
  induction l with
  | nil => simp [evictOld, ha]
  | cons s rest ih =>
    simp only [List.cons_append, evictOld]
    split_ifs with h
    · exact ih
    · exact List.mem_cons_of_mem s (List.mem_append.2 (Or.inr (by simp)))

/-- C8: one `update` call of the trailed variant appends the `(position, now)`
sample, keeps only samples at most `TRAIL_DURATION` old, evicts only from the
front (the new trail is a suffix of the old trail plus the new sample), and
keeps the trail in chronological order — given a trail that is chronological
with timestamps not after `now`. -/
theorem update_trail_invariants (p : TParticle) (dt now : ℝ)
    (hsort : List.Pairwise (fun a b : ℝ × ℝ × ℝ => a.2.2 ≤ b.2.2) p.trail)
    (hle : ∀ s ∈ p.trail, s.2.2 ≤ now) :
    (p.x, p.y, now) ∈ (p.update dt now).trail ∧
    (∀ s ∈ (p.update dt now).trail, now - s.2.2 ≤ TRAIL_DURATION) ∧
    (p.update dt now).trail <:+ p.trail ++ [(p.x, p.y, now)] ∧
    List.Pairwise (fun a b : ℝ × ℝ × ℝ => a.2.2 ≤ b.2.2) (p.update dt now).trail := by
  have htr : (p.update dt now).trail = evictOld now (p.trail ++ [(p.x, p.y, now)]) :=
    rfl
  have hTd : ¬ now - ((p.x, p.y, now) : ℝ × ℝ × ℝ).2.2 > TRAIL_DURATION := by
    norm_num [TRAIL_DURATION]
  have hsort' : List.Pairwise (fun a b : ℝ × ℝ × ℝ => a.2.2 ≤ b.2.2)
      (p.trail ++ [(p.x, p.y, now)]) := by
    rw [List.pairwise_append]
    refine ⟨hsort, List.pairwise_singleton _ _, fun a ha b hb => ?_⟩
    rw [List.mem_singleton.1 hb]
    exact hle a ha
  rw [htr]
  exact ⟨evictOld_mem_append now _ _ hTd, evictOld_ages now _ hsort',
    evictOld_suffix now _,
    List.Pairwise.sublist (evictOld_suffix now _).sublist hsort'⟩

/-- Witness for C8: a first update at time 5 on an empty trail. -/
theorem update_trail_invariants_witness :
    ((100 : ℝ), (100 : ℝ), (5 : ℝ)) ∈
      (TParticle.update ⟨100, 100, 1, 1, 10, []⟩ 1 5).trail ∧
    (5 : ℝ) - ((100 : ℝ), (100 : ℝ), (5 : ℝ)).2.2 ≤ TRAIL_DURATION ∧
    (TParticle.update ⟨100, 100, 1, 1, 10, []⟩ 1 5).trail <:+
      [((100 : ℝ), (100 : ℝ), (5 : ℝ))] := by
  obtain ⟨h1, h2, h3, -⟩ :=
    update_trail_invariants ⟨100, 100, 1, 1, 10, []⟩ 1 5 List.Pairwise.nil
      (by intro s hs; exact absurd hs (List.not_mem_nil s))
  exact ⟨h1, h2 _ h1, h3⟩

end Gas
